import Mathlib

/-!
Shallow embedding of the Warehouse dual-index catalog (src/Warehouse.h).

The C++ class `Warehouse` keeps two containers:
* `mProductsWithMetasById : std::unordered_map<Product::Id, ProductWithMeta>`,
  the primary unique-key index, whose mapped value stores the shared pointer
  to the product together with the iterator of the product's node inside the
  secondary index (`meta.it_productsByProducer`);
* `mProductsByProducer : std::multimap<Product::Producer, ProductPtr>`,
  the secondary non-unique index.

Embedding choices:
* `ProductPtr` is modelled as an address (`addr : Nat`) paired with the
  pointed-to immutable `Product` value, so that shared-pointer identity
  (`shared_ptr` equality in the tests) is expressible.
* The multimap is a list of nodes; each node carries a unique `token : Nat`
  standing for the node's identity, so that `erase(iterator)` — which removes
  exactly one node — is modelled as erasing the node with that token.
  `Warehouse.nextToken` is the supply of fresh node identities.
* The unordered map is an association list with first-match lookup; its
  iteration order is irrelevant to every operation of the class.
* Machine integers: `Product::Price` is `unsigned`; no arithmetic is ever
  performed on it by the class, so it is embedded as `Nat`.
  `size_t` results are embedded as `Nat` (the code only returns 0, 1 or a
  count bounded by the container size).
-/

/-- `struct Product` of src/Warehouse.h: an immutable value record. -/
structure Product where
  id : String
  producer : String
  name : String
  price : Nat
  deriving DecidableEq

/-- `Warehouse::ProductPtr = std::shared_ptr<const Product>`: a shared handle,
with `addr` standing for the identity of the pointed-to object. -/
structure ProductPtr where
  addr : Nat
  prod : Product
  deriving DecidableEq

/-- One node of `mProductsByProducer` (the `std::multimap`): the key it was
inserted under, its mapped `ProductPtr`, and a unique node identity `token`
standing for the node's address (what a multimap iterator designates). -/
structure PEntry where
  token : Nat
  key : String
  val : ProductPtr
  deriving DecidableEq

/-- `Warehouse::ProductWithMeta`: the mapped value of `mProductsWithMetasById`,
holding the product pointer and `meta.it_productsByProducer`, the iterator
(here: the token) of the product's node in the secondary index. -/
structure IdEntry where
  pProduct : ProductPtr
  itToken : Nat
  deriving DecidableEq

/-- The state of a `Warehouse` object: both containers plus the fresh-token
supply used to model multimap node identities. -/
structure Warehouse where
  byProducer : List PEntry
  byId : List (String × IdEntry)
  nextToken : Nat
  deriving DecidableEq

namespace Warehouse

/-- A default-constructed `Warehouse`: both containers empty. -/
def empty : Warehouse := ⟨[], [], 0⟩

/-- `mProductsWithMetasById.find(id)`: first-match association-list lookup. -/
def findEntry (w : Warehouse) (id : String) : Option (String × IdEntry) :=
  w.byId.find? (fun e => e.1 == id)

/-- `Warehouse::AddProduct` (src/Warehouse.h:42-64).
`emplace` on the unordered map fails iff the key is already present; on
success the new multimap node (fresh token) is inserted and its identity is
cached in the primary entry's meta. Returns the `success` flag. -/
def AddProduct (w : Warehouse) (p : ProductPtr) : Bool × Warehouse :=
  match w.findEntry p.prod.id with
  | some _ => (false, w)
  | none =>
      (true,
        { byProducer := ⟨w.nextToken, p.prod.producer, p⟩ :: w.byProducer
          byId := (p.prod.id, ⟨p, w.nextToken⟩) :: w.byId
          nextToken := w.nextToken + 1 })

/-- `Warehouse::FindProductById` (src/Warehouse.h:75-88): the stored pointer
if the id is present, otherwise the empty pointer (`none`). -/
def FindProductById (w : Warehouse) (id : String) : Option ProductPtr :=
  (w.findEntry id).map (fun e => e.2.pProduct)

/-- The `while` loop of `Warehouse::FindProductsByProducer`
(src/Warehouse.h:110-116): copy each pointer of the range to the output and
count the copies. -/
def copyRange : List PEntry → List ProductPtr × Nat
  | [] => ([], 0)
  | e :: rest =>
      let r := copyRange rest
      (e.val :: r.1, r.2 + 1)

/-- `Warehouse::FindProductsByProducer` (src/Warehouse.h:100-121):
`equal_range(producer)` on the multimap (all nodes whose key equals
`producer`), then the copy loop. Returns (written output, returned count). -/
def FindProductsByProducer (w : Warehouse) (producer : String) :
    List ProductPtr × Nat :=
  copyRange (w.byProducer.filter (fun e => e.key == producer))

/-- `Warehouse::RemoveProductById` (src/Warehouse.h:135-163): look the id up
in the primary index; if absent return 0 unchanged, otherwise erase the
cached multimap node (the node whose token is the cached iterator), erase the
primary entry, and return 1. -/
def RemoveProductById (w : Warehouse) (id : String) : Nat × Warehouse :=
  match w.findEntry id with
  | none => (0, w)
  | some e =>
      (1,
        { byProducer := w.byProducer.eraseP (fun pe => pe.token == e.2.itToken)
          byId := w.byId.eraseP (fun be => be.1 == id)
          nextToken := w.nextToken })

/-- `AddProduct` including its precondition `assert(pProduct)`
(src/Warehouse.h:45): a null handle (`none`) fails fast (no result), a
non-null handle always yields the ordinary result. -/
def AddProductChecked (w : Warehouse) (pOpt : Option ProductPtr) :
    Option (Bool × Warehouse) :=
  match pOpt with
  | none => none
  | some p => some (AddProduct w p)

/-- An item is currently present in the warehouse: some primary-index entry
stores it as its product pointer. -/
def Present (w : Warehouse) (q : ProductPtr) : Prop :=
  ∃ e ∈ w.byId, e.2.pProduct = q

/-- One mutating call of the public API. -/
inductive Op where
  | add (p : ProductPtr)
  | remove (id : String)
  deriving DecidableEq

/-- Apply one mutating call to a warehouse state. -/
def applyOp (w : Warehouse) : Op → Warehouse
  | .add p => (AddProduct w p).2
  | .remove id => (RemoveProductById w id).2

/-- Run a sequence of mutating calls from the empty warehouse. -/
def runOps (ops : List Op) : Warehouse := ops.foldl applyOp empty

/-- The states a `Warehouse` object can be in: those reached from the
default-constructed state by some sequence of public mutating calls. -/
def Reachable (w : Warehouse) : Prop := ∃ ops, runOps ops = w

/-- Structural well-formedness of a warehouse state, tying the two indexes
together: distinct primary keys, distinct node identities, every stored
pointer keyed by its own id, every cached iterator designating a live
secondary node with the right key and pointer, and conversely every
secondary node backed by exactly the primary entry that caches it. -/
structure WF (w : Warehouse) : Prop where
  idsNodup : (w.byId.map Prod.fst).Nodup
  keyMatches : ∀ e ∈ w.byId, e.2.pProduct.prod.id = e.1
  prodTokensNodup : (w.byProducer.map PEntry.token).Nodup
  idTokensNodup : (w.byId.map (fun e => e.2.itToken)).Nodup
  tokensBounded : ∀ e ∈ w.byId, e.2.itToken < w.nextToken
  prodTokensBounded : ∀ pe ∈ w.byProducer, pe.token < w.nextToken
  prodKeyMatches : ∀ pe ∈ w.byProducer, pe.key = pe.val.prod.producer
  link : ∀ e ∈ w.byId,
    (⟨e.2.itToken, e.2.pProduct.prod.producer, e.2.pProduct⟩ : PEntry)
      ∈ w.byProducer
  linkBack : ∀ pe ∈ w.byProducer,
    (pe.val.prod.id, (⟨pe.val, pe.token⟩ : IdEntry)) ∈ w.byId

/-- Spec-side recast of P2, written from the spec's words: the id `x` is
Present after `ops` iff the most recent operation affecting `x` was a
successful add not yet followed by a successful remove. Processing the
operations in order: an add of an item with id `x` makes it present (a
second such add fails and keeps it present), a remove of `x` makes it
absent, and operations on other ids leave it untouched. -/
def presentAfterSpec (x : String) (ops : List Op) : Bool :=
  ops.foldl
    (fun b o =>
      match o with
      | .add p => b || (p.prod.id == x)
      | .remove y => if y == x then false else b)
    false


end Warehouse

section Sanity

open Warehouse

def pA : ProductPtr := ⟨1, ⟨"id1", "producerX", "A", 1⟩⟩
def pB : ProductPtr := ⟨2, ⟨"id2", "producerX", "B", 2⟩⟩
def pC : ProductPtr := ⟨3, ⟨"id3", "producerY", "C", 3⟩⟩

def pD : ProductPtr := ⟨4, ⟨"id4", "producerY", "D", 4⟩⟩

def sampleOps : List Op := [.add pA, .add pB, .add pC]

def sampleW : Warehouse := runOps sampleOps


section ListHelpers

variable {α β : Type} [DecidableEq β]

/-- Erasing by one key and searching for a different key commute away:
the association-list search is unaffected. -/
lemma find_eraseP_of_ne (f : α → β) (l : List α) {k₁ k₂ : β} (hne : k₁ ≠ k₂) :
    (l.eraseP (fun x => f x == k₂)).find? (fun x => f x == k₁)
      = l.find? (fun x => f x == k₁) := by
  induction l with
  | nil => rfl
  | cons a l ih =>
      by_cases h2 : f a = k₂
      · have e : (a :: l).eraseP (fun x => f x == k₂) = l := by
          simp [List.eraseP_cons, h2]
        have h1 : (f a == k₁) = false := by
          simp only [beq_eq_false_iff_ne]
          rw [h2]
          exact fun h => hne h.symm
        rw [e, List.find?_cons, h1]
      · have e : (a :: l).eraseP (fun x => f x == k₂)
            = a :: l.eraseP (fun x => f x == k₂) := by
          simp [List.eraseP_cons, h2]
        rw [e]
        by_cases h1 : f a = k₁
        · simp [List.find?_cons, h1]
        · have h1' : (f a == k₁) = false := beq_eq_false_iff_ne.mpr h1
          rw [List.find?_cons, h1', List.find?_cons, h1', ih]

/-- With pairwise-distinct keys, after erasing the entry of a key, searching
for that key finds nothing. -/
lemma find_eraseP_self (f : α → β) (l : List α) (k : β)
    (hnd : (l.map f).Nodup) :
    (l.eraseP (fun x => f x == k)).find? (fun x => f x == k) = none := by
  induction l with
  | nil => rfl
  | cons a l ih =>
      rw [List.map_cons, List.nodup_cons] at hnd
      by_cases h : f a = k
      · have e : (a :: l).eraseP (fun x => f x == k) = l := by
          simp [List.eraseP_cons, h]
        rw [e, List.find?_eq_none]
        intro x hx hpx
        have hfx : f x = k := by simpa using hpx
        apply hnd.1
        rw [h, ← hfx]
        exact List.mem_map_of_mem f hx
      · have e : (a :: l).eraseP (fun x => f x == k)
            = a :: l.eraseP (fun x => f x == k) := by
          simp [List.eraseP_cons, h]
        have h' : (f a == k) = false := beq_eq_false_iff_ne.mpr h
        rw [e, List.find?_cons, h']
        exact ih hnd.2

/-- With pairwise-distinct keys, every survivor of erasing key `k` has a key
different from `k`. -/
lemma key_ne_of_mem_eraseP (f : α → β) {l : List α} {k : β}
    (hnd : (l.map f).Nodup) {b : α}
    (hb : b ∈ l.eraseP (fun x => f x == k)) : f b ≠ k := by
  induction l with
  | nil => cases hb
  | cons a l ih =>
      rw [List.map_cons, List.nodup_cons] at hnd
      by_cases h : f a = k
      · have e : (a :: l).eraseP (fun x => f x == k) = l := by
          simp [List.eraseP_cons, h]
        rw [e] at hb
        intro hbk
        apply hnd.1
        rw [h, ← hbk]
        exact List.mem_map_of_mem f hb
      · have e : (a :: l).eraseP (fun x => f x == k)
            = a :: l.eraseP (fun x => f x == k) := by
          simp [List.eraseP_cons, h]
        rw [e, List.mem_cons] at hb
        rcases hb with rfl | hb'
        · exact h
        · exact ih hnd.2 hb'

/-- With pairwise-distinct keys, a member's key is hit exactly once. -/
lemma countP_key_eq_one (f : α → β) {l : List α} (hnd : (l.map f).Nodup)
    {b : α} (hb : b ∈ l) :
    l.countP (fun x => f x == f b) = 1 := by
  induction l with
  | nil => cases hb
  | cons a l ih =>
      rw [List.map_cons, List.nodup_cons] at hnd
      rcases List.mem_cons.mp hb with rfl | hb'
      · have h0 : l.countP (fun x => f x == f b) = 0 := by
          rw [List.countP_eq_zero]
          intro x hx hpx
          have hfx : f x = f b := by simpa using hpx
          exact hnd.1 (hfx ▸ List.mem_map_of_mem f hx)
        simp [List.countP_cons, h0]
      · have hne : (f a == f b) = false := by
          simp only [beq_eq_false_iff_ne]
          intro hfa
          exact hnd.1 (hfa ▸ List.mem_map_of_mem f hb')
        rw [List.countP_cons, hne]
        simpa using ih hnd.2 hb'

/-- With pairwise-distinct keys, no key is hit more than once. -/
lemma countP_key_le_one {α β : Type} [DecidableEq β] (f : α → β)
    {l : List α} (hnd : (l.map f).Nodup) (k : β) :
    l.countP (fun x => f x == k) ≤ 1 := by
  by_cases hex : ∃ b ∈ l, f b = k
  · obtain ⟨b, hb, hfb⟩ := hex
    rw [← hfb]
    exact Nat.le_of_eq (countP_key_eq_one f hnd hb)
  · have h0 : l.countP (fun x => f x == k) = 0 := by
      rw [List.countP_eq_zero]
      intro x hx hpx
      exact hex ⟨x, hx, by simpa using hpx⟩
    simp [h0]

/-- Erasing an element that the filter drops anyway does not change the
filter. -/
lemma filter_eraseP_of_not {α : Type} (pf pe : α → Bool) (l : List α)
    (h : ∀ a ∈ l, pe a → pf a = false) :
    (l.eraseP pe).filter pf = l.filter pf := by
  induction l with
  | nil => rfl
  | cons a l ih =>
      by_cases ha : pe a
      · have e : (a :: l).eraseP pe = l := by simp [List.eraseP_cons, ha]
        rw [e, List.filter_cons, h a (List.mem_cons_self a l) ha]
        simp
      · have e : (a :: l).eraseP pe = a :: l.eraseP pe := by
          simp [List.eraseP_cons, ha]
        rw [e, List.filter_cons, List.filter_cons,
          ih (fun b hb => h b (List.mem_cons_of_mem a hb))]

end ListHelpers

namespace Warehouse

lemma wf_empty : WF empty := by
  constructor <;> simp [empty]

lemma wf_AddProduct (w : Warehouse) (p : ProductPtr) (hw : WF w) :
    WF (AddProduct w p).2 := by
  cases hfind : w.findEntry p.prod.id with
  | some e =>
      simp only [AddProduct, hfind]
      exact hw
  | none =>
      have hfind' : w.byId.find? (fun e => e.1 == p.prod.id) = none := hfind
      have hid : ∀ e ∈ w.byId, e.1 ≠ p.prod.id := by
        intro e he
        have := List.find?_eq_none.mp hfind' e he
        simpa using this
      have hidm : p.prod.id ∉ w.byId.map Prod.fst := by
        intro hmem
        obtain ⟨e, he, hke⟩ := List.mem_map.mp hmem
        exact hid e he hke
      simp only [AddProduct, hfind]
      refine ⟨?_, ?_, ?_, ?_, ?_, ?_, ?_, ?_, ?_⟩
      · exact List.nodup_cons.mpr ⟨hidm, hw.idsNodup⟩
      · intro e he
        rcases List.mem_cons.mp he with rfl | he'
        · rfl
        · exact hw.keyMatches e he'
      · refine List.nodup_cons.mpr ⟨?_, hw.prodTokensNodup⟩
        intro hmem
        obtain ⟨pe, hpe, hke⟩ := List.mem_map.mp hmem
        exact absurd hke (Nat.ne_of_lt (hw.prodTokensBounded pe hpe))
      · refine List.nodup_cons.mpr ⟨?_, hw.idTokensNodup⟩
        intro hmem
        obtain ⟨e, he, hke⟩ := List.mem_map.mp hmem
        exact absurd hke (Nat.ne_of_lt (hw.tokensBounded e he))
      · intro e he
        rcases List.mem_cons.mp he with rfl | he'
        · exact Nat.lt_succ_self _
        · exact Nat.lt_succ_of_lt (hw.tokensBounded e he')
      · intro pe hpe
        rcases List.mem_cons.mp hpe with rfl | hpe'
        · exact Nat.lt_succ_self _
        · exact Nat.lt_succ_of_lt (hw.prodTokensBounded pe hpe')
      · intro pe hpe
        rcases List.mem_cons.mp hpe with rfl | hpe'
        · rfl
        · exact hw.prodKeyMatches pe hpe'
      · intro e he
        rcases List.mem_cons.mp he with rfl | he'
        · exact List.mem_cons_self _ _
        · exact List.mem_cons_of_mem _ (hw.link e he')
      · intro pe hpe
        rcases List.mem_cons.mp hpe with rfl | hpe'
        · exact List.mem_cons_self _ _
        · exact List.mem_cons_of_mem _ (hw.linkBack pe hpe')

lemma wf_RemoveProductById (w : Warehouse) (id : String) (hw : WF w) :
    WF (RemoveProductById w id).2 := by
  cases hfind : w.findEntry id with
  | none =>
      simp only [RemoveProductById, hfind]
      exact hw
  | some e =>
      have hfind' : w.byId.find? (fun be => be.1 == id) = some e := hfind
      have he_mem : e ∈ w.byId := List.mem_of_find?_eq_some hfind'
      have he_key : e.1 = id := by simpa using List.find?_some hfind'
      simp only [RemoveProductById, hfind]
      refine ⟨?_, ?_, ?_, ?_, ?_, ?_, ?_, ?_, ?_⟩
      · exact ((List.eraseP_sublist w.byId).map Prod.fst).nodup hw.idsNodup
      · intro e' he'
        exact hw.keyMatches e' ((List.eraseP_sublist w.byId).subset he')
      · exact ((List.eraseP_sublist w.byProducer).map PEntry.token).nodup
          hw.prodTokensNodup
      · exact ((List.eraseP_sublist w.byId).map (fun e => e.2.itToken)).nodup
          hw.idTokensNodup
      · intro e' he'
        exact hw.tokensBounded e' ((List.eraseP_sublist w.byId).subset he')
      · intro pe hpe
        exact hw.prodTokensBounded pe
          ((List.eraseP_sublist w.byProducer).subset hpe)
      · intro pe hpe
        exact hw.prodKeyMatches pe
          ((List.eraseP_sublist w.byProducer).subset hpe)
      · intro e' he'
        have he'' : e' ∈ w.byId := (List.eraseP_sublist w.byId).subset he'
        have hkey' : e'.1 ≠ id :=
          key_ne_of_mem_eraseP Prod.fst hw.idsNodup he'
        have htokne : e'.2.itToken ≠ e.2.itToken := by
          intro htok
          exact hkey'
            ((List.inj_on_of_nodup_map hw.idTokensNodup he'' he_mem htok)
              ▸ he_key)
        exact (List.mem_eraseP_of_neg (by simpa using htokne)).mpr
          (hw.link e' he'')
      · intro pe hpe
        have hpe' : pe ∈ w.byProducer :=
          (List.eraseP_sublist w.byProducer).subset hpe
        have htokne : pe.token ≠ e.2.itToken :=
          key_ne_of_mem_eraseP PEntry.token hw.prodTokensNodup hpe
        have hb : (pe.val.prod.id, (⟨pe.val, pe.token⟩ : IdEntry)) ∈ w.byId :=
          hw.linkBack pe hpe'
        have hkne : pe.val.prod.id ≠ id := by
          intro hkeq
          apply htokne
          have heq := List.inj_on_of_nodup_map hw.idsNodup hb he_mem
            (by simpa using hkeq.trans he_key.symm)
          exact congrArg (fun x => x.2.itToken) heq
        exact (List.mem_eraseP_of_neg (by simpa using hkne)).mpr hb

lemma wf_applyOp (w : Warehouse) (o : Op) (hw : WF w) : WF (applyOp w o) := by
  cases o with
  | add p => exact wf_AddProduct w p hw
  | remove i => exact wf_RemoveProductById w i hw

lemma wf_foldl (ops : List Op) (w : Warehouse) (hw : WF w) :
    WF (ops.foldl applyOp w) := by
  induction ops generalizing w with
  | nil => exact hw
  | cons o ops ih => exact ih _ (wf_applyOp w o hw)

lemma wf_of_reachable {w : Warehouse} (h : Reachable w) : WF w := by
  obtain ⟨ops, rfl⟩ := h
  exact wf_foldl ops empty wf_empty

lemma copyRange_eq (l : List PEntry) :
    copyRange l = (l.map PEntry.val, l.length) := by
  induction l with
  | nil => rfl
  | cons a l ih => simp [copyRange, ih]

lemma find_by_producer_fst (w : Warehouse) (pr : String) :
    (FindProductsByProducer w pr).1
      = (w.byProducer.filter (fun e => e.key == pr)).map PEntry.val := by
  rw [FindProductsByProducer, copyRange_eq]

lemma find_by_producer_snd (w : Warehouse) (pr : String) :
    (FindProductsByProducer w pr).2
      = (FindProductsByProducer w pr).1.length := by
  rw [FindProductsByProducer, copyRange_eq]
  simp

/-- With pairwise-distinct keys, an association-list search for a member's
key finds exactly that member. -/
lemma find_of_mem_of_nodup {α β : Type} [DecidableEq β] (f : α → β)
    {l : List α} (hnd : (l.map f).Nodup) {b : α} (hb : b ∈ l) :
    l.find? (fun x => f x == f b) = some b := by
  induction l with
  | nil => cases hb
  | cons a l ih =>
      rw [List.map_cons, List.nodup_cons] at hnd
      rcases List.mem_cons.mp hb with rfl | hb'
      · simp [List.find?_cons]
      · have hne : (f a == f b) = false := by
          simp only [beq_eq_false_iff_ne]
          intro hfa
          exact hnd.1 (hfa ▸ List.mem_map_of_mem f hb')
        rw [List.find?_cons, hne]
        exact ih hnd.2 hb'

/-- In a well-formed state, distinct secondary-index nodes hold distinct
pointers (each pointer is backed by a single primary entry). -/
lemma val_inj (w : Warehouse) (hw : WF w) {pe₁ pe₂ : PEntry}
    (h₁ : pe₁ ∈ w.byProducer) (h₂ : pe₂ ∈ w.byProducer)
    (hv : pe₁.val = pe₂.val) : pe₁ = pe₂ := by
  have hb₁ := hw.linkBack pe₁ h₁
  have hb₂ := hw.linkBack pe₂ h₂
  have hkeys : (pe₁.val.prod.id, (⟨pe₁.val, pe₁.token⟩ : IdEntry)).1
      = (pe₂.val.prod.id, (⟨pe₂.val, pe₂.token⟩ : IdEntry)).1 := by
    simp [hv]
  have heq := List.inj_on_of_nodup_map hw.idsNodup hb₁ hb₂ hkeys
  have htok : pe₁.token = pe₂.token :=
    congrArg (fun x => x.2.itToken) heq
  exact List.inj_on_of_nodup_map hw.prodTokensNodup h₁ h₂ htok

/-- Characterization of `FindProductById` in a well-formed state: it returns
exactly the stored handle of the present item with that id. -/
lemma findById_eq_some (w : Warehouse) (hw : WF w) (x : String)
    (q : ProductPtr) :
    FindProductById w x = some q ↔ Present w q ∧ q.prod.id = x := by
  constructor
  · intro h
    rw [FindProductById] at h
    cases hfind : w.findEntry x with
    | none => rw [hfind] at h; cases h
    | some e =>
        rw [hfind] at h
        have hq : e.2.pProduct = q := by simpa using h
        have hfind' : w.byId.find? (fun be => be.1 == x) = some e := hfind
        have he_mem : e ∈ w.byId := List.mem_of_find?_eq_some hfind'
        have he_key : e.1 = x := by simpa using List.find?_some hfind'
        exact ⟨⟨e, he_mem, hq⟩, hq ▸ he_key ▸ hw.keyMatches e he_mem⟩
  · rintro ⟨⟨e, he, hq⟩, hx⟩
    have he_key : e.1 = x := by
      rw [← hx, ← hq]
      exact (hw.keyMatches e he).symm
    have : w.byId.find? (fun be => be.1 == e.1) = some e :=
      find_of_mem_of_nodup Prod.fst hw.idsNodup he
    rw [FindProductById, findEntry, ← he_key, this]
    simpa using hq

/-- Characterization of the output of `FindProductsByProducer` in a
well-formed state: exactly the present items of that producer. -/
lemma mem_find_by_producer (w : Warehouse) (hw : WF w) (pr : String)
    (q : ProductPtr) :
    q ∈ (FindProductsByProducer w pr).1
      ↔ Present w q ∧ q.prod.producer = pr := by
  rw [find_by_producer_fst]
  constructor
  · intro h
    obtain ⟨pe, hpe, hval⟩ := List.mem_map.mp h
    have hpe' : pe ∈ w.byProducer := (List.mem_filter.mp hpe).1
    have hkey : pe.key = pr := by
      simpa using (List.mem_filter.mp hpe).2
    refine ⟨?_, ?_⟩
    · exact ⟨(pe.val.prod.id, ⟨pe.val, pe.token⟩), hw.linkBack pe hpe',
        by simpa using hval⟩
    · rw [← hval, ← hw.prodKeyMatches pe hpe', hkey]
  · rintro ⟨⟨e, he, hq⟩, hpr⟩
    have hnode := hw.link e he
    refine List.mem_map.mpr
      ⟨⟨e.2.itToken, e.2.pProduct.prod.producer, e.2.pProduct⟩, ?_, hq⟩
    refine List.mem_filter.mpr ⟨hnode, ?_⟩
    simp only [beq_iff_eq]
    rw [hq, hpr]

/-- In a well-formed state, the output of `FindProductsByProducer` has no
duplicate handles. -/
lemma find_by_producer_nodup (w : Warehouse) (hw : WF w) (pr : String) :
    (FindProductsByProducer w pr).1.Nodup := by
  rw [find_by_producer_fst]
  have hnd : w.byProducer.Nodup := List.Nodup.of_map _ hw.prodTokensNodup
  have hfil : (w.byProducer.filter (fun e => e.key == pr)).Nodup :=
    (List.filter_sublist w.byProducer).nodup hnd
  refine List.Nodup.map_on ?_ hfil
  intro pe₁ h₁ pe₂ h₂ hv
  exact val_inj w hw ((List.filter_sublist w.byProducer).subset h₁)
    ((List.filter_sublist w.byProducer).subset h₂) hv

/-- In a well-formed state, the returned count of `FindProductsByProducer`
equals the number of present items of that producer. -/
lemma find_by_producer_count (w : Warehouse) (hw : WF w) (pr : String) :
    (FindProductsByProducer w pr).2
      = (w.byId.filter
          (fun e => e.2.pProduct.prod.producer == pr)).length := by
  have hperm :
      ((w.byProducer.filter (fun pe => pe.key == pr)).map PEntry.token).Perm
        ((w.byId.filter (fun e => e.2.pProduct.prod.producer == pr)).map
          (fun e => e.2.itToken)) := by
    refine (List.perm_ext_iff_of_nodup ?_ ?_).mpr ?_
    · exact ((List.filter_sublist w.byProducer).map PEntry.token).nodup
        hw.prodTokensNodup
    · exact ((List.filter_sublist w.byId).map (fun e => e.2.itToken)).nodup
        hw.idTokensNodup
    · intro t
      constructor
      · intro h
        obtain ⟨pe, hpe, htok⟩ := List.mem_map.mp h
        have hpe' : pe ∈ w.byProducer := (List.mem_filter.mp hpe).1
        have hkey : pe.key = pr := by
          simpa using (List.mem_filter.mp hpe).2
        refine List.mem_map.mpr
          ⟨(pe.val.prod.id, ⟨pe.val, pe.token⟩), ?_, htok⟩
        refine List.mem_filter.mpr ⟨hw.linkBack pe hpe', ?_⟩
        simp only [beq_iff_eq]
        rw [← hw.prodKeyMatches pe hpe', hkey]
      · intro h
        obtain ⟨e, he, htok⟩ := List.mem_map.mp h
        have he' : e ∈ w.byId := (List.mem_filter.mp he).1
        have hkey : e.2.pProduct.prod.producer = pr := by
          simpa using (List.mem_filter.mp he).2
        refine List.mem_map.mpr
          ⟨⟨e.2.itToken, e.2.pProduct.prod.producer, e.2.pProduct⟩, ?_, htok⟩
        refine List.mem_filter.mpr ⟨hw.link e he', ?_⟩
        simpa using hkey
  have hlen := hperm.length_eq
  rw [List.length_map, List.length_map] at hlen
  rw [find_by_producer_snd, find_by_producer_fst, List.length_map, hlen]

lemma findById_def (w : Warehouse) (x : String) :
    FindProductById w x
      = (w.byId.find? (fun e => e.1 == x)).map (fun e => e.2.pProduct) := rfl

lemma findById_none_iff (w : Warehouse) (x : String) :
    FindProductById w x = none ↔ w.findEntry x = none := by
  rw [FindProductById]
  cases w.findEntry x <;> simp

lemma add_result_of_present (w : Warehouse) (p : ProductPtr) (e : String × IdEntry)
    (hfind : w.findEntry p.prod.id = some e) :
    AddProduct w p = (false, w) := by
  simp [AddProduct, hfind]

lemma add_result_of_absent (w : Warehouse) (p : ProductPtr)
    (hfind : w.findEntry p.prod.id = none) :
    (AddProduct w p).1 = true
    ∧ FindProductById (AddProduct w p).2 p.prod.id = some p
    ∧ p ∈ (FindProductsByProducer (AddProduct w p).2 p.prod.producer).1 := by
  have hfind' : w.byId.find? (fun e => e.1 == p.prod.id) = none := hfind
  refine ⟨?_, ?_, ?_⟩
  · simp [AddProduct, hfind]
  · simp [AddProduct, hfind, hfind', FindProductById, findEntry,
      List.find?_cons]
  · rw [find_by_producer_fst]
    simp [AddProduct, hfind, List.filter_cons]

lemma remove_result_of_absent (w : Warehouse) (x : String)
    (hfind : w.findEntry x = none) :
    RemoveProductById w x = (0, w) := by
  simp [RemoveProductById, hfind]

lemma remove_result_of_present (w : Warehouse) (hw : WF w) (x : String)
    (q : ProductPtr) (hq : FindProductById w x = some q) :
    (RemoveProductById w x).1 = 1
    ∧ FindProductById (RemoveProductById w x).2 x = none
    ∧ q ∉ (FindProductsByProducer (RemoveProductById w x).2
        q.prod.producer).1 := by
  rw [FindProductById] at hq
  cases hfind : w.findEntry x with
  | none => rw [hfind] at hq; cases hq
  | some e =>
      rw [hfind] at hq
      have hqe : e.2.pProduct = q := by simpa using hq
      have hfind' : w.byId.find? (fun be => be.1 == x) = some e := hfind
      have he_mem : e ∈ w.byId := List.mem_of_find?_eq_some hfind'
      have he_key : e.1 = x := by simpa using List.find?_some hfind'
      have hqid : q.prod.id = x := by
        rw [← hqe, hw.keyMatches e he_mem, he_key]
      have hw' : WF (RemoveProductById w x).2 := wf_RemoveProductById w x hw
      refine ⟨?_, ?_, ?_⟩
      · simp [RemoveProductById, hfind]
      · rw [findById_def]
        have : ((RemoveProductById w x).2.byId).find? (fun be => be.1 == x)
            = none := by
          simp only [RemoveProductById, hfind]
          exact find_eraseP_self Prod.fst w.byId x hw.idsNodup
        rw [this]
        rfl
      · intro hmem
        obtain ⟨⟨e', he', hqe'⟩, _⟩ :=
          (mem_find_by_producer _ hw' q.prod.producer q).mp hmem
        have he'' : e' ∈ w.byId := by
          have : (RemoveProductById w x).2.byId
              = w.byId.eraseP (fun be => be.1 == x) := by
            simp [RemoveProductById, hfind]
          rw [this] at he'
          exact (List.eraseP_sublist w.byId).subset he'
        have hkeyne : e'.1 ≠ x := by
          have : (RemoveProductById w x).2.byId
              = w.byId.eraseP (fun be => be.1 == x) := by
            simp [RemoveProductById, hfind]
          rw [this] at he'
          exact key_ne_of_mem_eraseP Prod.fst hw.idsNodup he'
        apply hkeyne
        rw [← hw.keyMatches e' he'', hqe', hqid]

lemma findById_isSome_applyOp (w : Warehouse) (hw : WF w) (x : String)
    (o : Op) :
    (FindProductById (applyOp w o) x).isSome
      = (match o with
         | .add p => (FindProductById w x).isSome || (p.prod.id == x)
         | .remove y =>
             if y == x then false else (FindProductById w x).isSome) := by
  cases o with
  | add p =>
      cases hfind : w.findEntry p.prod.id with
      | some e =>
          have hstate : applyOp w (.add p) = w := by
            simp [applyOp, AddProduct, hfind]
          rw [hstate]
          by_cases hpx : p.prod.id = x
          · have : FindProductById w x = some e.2.pProduct := by
              rw [FindProductById, ← hpx, hfind]
              rfl
            simp [this, hpx]
          · simp [beq_eq_false_iff_ne.mpr hpx]
      | none =>
          have hstate : (applyOp w (.add p)).byId
              = (p.prod.id, ⟨p, w.nextToken⟩) :: w.byId := by
            simp [applyOp, AddProduct, hfind]
          rw [findById_def, hstate, List.find?_cons]
          by_cases hpx : p.prod.id = x
          · have hfx : FindProductById w x = none := by
              rw [findById_none_iff, ← hpx]
              exact hfind
            simp [hpx, hfx]
          · have hne : ((p.prod.id, (⟨p, w.nextToken⟩ : IdEntry)).1 == x)
                = false := beq_eq_false_iff_ne.mpr hpx
            rw [hne]
            simp [findById_def, beq_eq_false_iff_ne.mpr hpx]
  | remove y =>
      cases hfind : w.findEntry y with
      | none =>
          have hstate : applyOp w (.remove y) = w := by
            simp [applyOp, RemoveProductById, hfind]
          rw [hstate]
          by_cases hyx : y = x
          · have hfx : FindProductById w x = none := by
              rw [findById_none_iff, ← hyx]
              exact hfind
            simp [hyx, hfx]
          · simp [beq_eq_false_iff_ne.mpr hyx]
      | some e =>
          have hstate : (applyOp w (.remove y)).byId
              = w.byId.eraseP (fun be => be.1 == y) := by
            simp [applyOp, RemoveProductById, hfind]
          rw [findById_def, hstate]
          by_cases hyx : y = x
          · subst hyx
            rw [find_eraseP_self Prod.fst w.byId y hw.idsNodup]
            simp
          · rw [find_eraseP_of_ne Prod.fst w.byId (fun h => hyx h.symm)]
            simp [findById_def, beq_eq_false_iff_ne.mpr hyx]

lemma findById_foldl (ops : List Op) (w : Warehouse) (hw : WF w)
    (x : String) :
    (FindProductById (ops.foldl applyOp w) x).isSome
      = ops.foldl
          (fun b o =>
            match o with
            | .add p => b || (p.prod.id == x)
            | .remove y => if y == x then false else b)
          ((FindProductById w x).isSome) := by
  induction ops generalizing w with
  | nil => rfl
  | cons o ops ih =>
      rw [List.foldl_cons, List.foldl_cons, ih _ (wf_applyOp w o hw),
        findById_isSome_applyOp w hw x o]

/-- A present item stays present under any operation other than the removal
of its own id. -/
lemma present_applyOp (w : Warehouse) (hw : WF w) (p : ProductPtr)
    (hp : Present w p) (o : Op) (hno : o ≠ Op.remove p.prod.id) :
    Present (applyOp w o) p := by
  obtain ⟨e, he, hpe⟩ := hp
  cases o with
  | add q =>
      cases hfind : w.findEntry q.prod.id with
      | some e' =>
          have hstate : applyOp w (.add q) = w := by
            simp [applyOp, AddProduct, hfind]
          rw [hstate]
          exact ⟨e, he, hpe⟩
      | none =>
          have hstate : (applyOp w (.add q)).byId
              = (q.prod.id, ⟨q, w.nextToken⟩) :: w.byId := by
            simp [applyOp, AddProduct, hfind]
          exact ⟨e, hstate ▸ List.mem_cons_of_mem _ he, hpe⟩
  | remove y =>
      have hyne : y ≠ p.prod.id := fun h => hno (by rw [h])
      cases hfind : w.findEntry y with
      | none =>
          have hstate : applyOp w (.remove y) = w := by
            simp [applyOp, RemoveProductById, hfind]
          rw [hstate]
          exact ⟨e, he, hpe⟩
      | some e' =>
          have hstate : (applyOp w (.remove y)).byId
              = w.byId.eraseP (fun be => be.1 == y) := by
            simp [applyOp, RemoveProductById, hfind]
          have hekey : e.1 = p.prod.id := by
            rw [← hpe]
            exact (hw.keyMatches e he).symm
          have : e ∈ w.byId.eraseP (fun be => be.1 == y) := by
            refine (List.mem_eraseP_of_neg ?_).mpr he
            simp only [beq_iff_eq, hekey]
            exact fun h => hyne h.symm
          exact ⟨e, hstate ▸ this, hpe⟩

/-- A present item stays present under any sequence of operations that never
removes its own id. -/
lemma present_foldl (ops : List Op) (w : Warehouse) (hw : WF w)
    (p : ProductPtr) (hp : Present w p)
    (hno : ∀ o ∈ ops, o ≠ Op.remove p.prod.id) :
    Present (ops.foldl applyOp w) p := by
  induction ops generalizing w with
  | nil => exact hp
  | cons o ops ih =>
      rw [List.foldl_cons]
      exact ih _ (wf_applyOp w o hw)
        (present_applyOp w hw p hp o (hno o (List.mem_cons_self o ops)))
        (fun o' ho' => hno o' (List.mem_cons_of_mem o ho'))

end Warehouse

end Sanity

namespace Warehouse

/-- C1: in every state reached by a sequence of add/remove operations, for
every producer value `pr`, `FindProductsByProducer pr` writes to the output
exactly the set of currently-present items whose producer field equals `pr`
— no extras, no omissions, no duplicates — the returned count equals the
number of items written, and when there are no matches the output is empty
and the count is 0. -/
theorem find_by_producer_exact (w : Warehouse) (hw : Reachable w)
    (pr : String) :
    (∀ q, q ∈ (FindProductsByProducer w pr).1
        ↔ Present w q ∧ q.prod.producer = pr)
    ∧ (FindProductsByProducer w pr).1.Nodup
    ∧ (FindProductsByProducer w pr).2
        = (FindProductsByProducer w pr).1.length
    ∧ ((∀ q, Present w q → q.prod.producer ≠ pr) →
        (FindProductsByProducer w pr).1 = []
        ∧ (FindProductsByProducer w pr).2 = 0) := by
  have hwf := wf_of_reachable hw
  refine ⟨mem_find_by_producer w hwf pr, find_by_producer_nodup w hwf pr,
    find_by_producer_snd w pr, ?_⟩
  intro hnone
  have hnil : (FindProductsByProducer w pr).1 = [] := by
    rw [List.eq_nil_iff_forall_not_mem]
    intro q hq
    obtain ⟨hpres, hprod⟩ := (mem_find_by_producer w hwf pr q).mp hq
    exact hnone q hpres hprod
  exact ⟨hnil, by rw [find_by_producer_snd, hnil]; rfl⟩

theorem find_by_producer_exact_witness :
    Reachable sampleW
    ∧ (pB ∈ (FindProductsByProducer sampleW "producerX").1
        ↔ Present sampleW pB ∧ pB.prod.producer = "producerX") :=
  ⟨⟨sampleOps, rfl⟩,
    (find_by_producer_exact sampleW ⟨sampleOps, rfl⟩ "producerX").1 pB⟩

/-- C2: cross-index consistency holds in every reachable state: every
primary-index entry has exactly one secondary-index node with its cached
token, and that node carries its own producer value and its own pointer;
conversely, every secondary-index node is backed by exactly one
primary-index entry; hence every present item appears in exactly one
producer group (its own, exactly once) and in exactly one id slot. -/
theorem cross_index_consistent (w : Warehouse) (hw : Reachable w) :
    (∀ e ∈ w.byId,
        w.byProducer.countP (fun pe => pe.token == e.2.itToken) = 1
        ∧ (⟨e.2.itToken, e.2.pProduct.prod.producer, e.2.pProduct⟩ : PEntry)
            ∈ w.byProducer)
    ∧ (∀ pe ∈ w.byProducer,
        w.byId.countP (fun e => e.2.itToken == pe.token) = 1
        ∧ (pe.val.prod.id, (⟨pe.val, pe.token⟩ : IdEntry)) ∈ w.byId)
    ∧ (∀ q, Present w q →
        (∀ pr, (FindProductsByProducer w pr).1.count q
            = if pr = q.prod.producer then 1 else 0)
        ∧ w.byId.countP (fun e => e.1 == q.prod.id) = 1) := by
  have hwf := wf_of_reachable hw
  refine ⟨?_, ?_, ?_⟩
  · intro e he
    exact ⟨countP_key_eq_one PEntry.token hwf.prodTokensNodup
        (hwf.link e he), hwf.link e he⟩
  · intro pe hpe
    exact ⟨countP_key_eq_one (fun e => e.2.itToken) hwf.idTokensNodup
        (hwf.linkBack pe hpe), hwf.linkBack pe hpe⟩
  · intro q hq
    constructor
    · intro pr
      by_cases hpr : pr = q.prod.producer
      · subst hpr
        rw [if_pos rfl]
        exact List.count_eq_one_of_mem
          (find_by_producer_nodup w hwf q.prod.producer)
          ((mem_find_by_producer w hwf q.prod.producer q).mpr ⟨hq, rfl⟩)
      · rw [if_neg hpr, List.count_eq_zero]
        intro hmem
        exact hpr ((mem_find_by_producer w hwf pr q).mp hmem).2.symm
    · obtain ⟨e, he, hpe⟩ := hq
      have he1 : e.1 = q.prod.id := by
        rw [← hpe]
        exact (hwf.keyMatches e he).symm
      rw [← he1]
      exact countP_key_eq_one Prod.fst hwf.idsNodup he

/-- C3: for every product handle `p`: if no item with id `p->id` is present,
`AddProduct p` returns true and inserts `p` into both indexes (it is found
by id and listed under its producer); if an item with that id is already
present, `AddProduct p` returns false and leaves the state completely
unchanged (no overwrite, no merge); and in every reachable state at most one
item with any given id is present. -/
theorem add_product_spec (w : Warehouse) (hw : Reachable w)
    (p : ProductPtr) (x : String) :
    (FindProductById w p.prod.id = none →
        (AddProduct w p).1 = true
        ∧ FindProductById (AddProduct w p).2 p.prod.id = some p
        ∧ p ∈ (FindProductsByProducer (AddProduct w p).2
            p.prod.producer).1)
    ∧ ((FindProductById w p.prod.id).isSome → AddProduct w p = (false, w))
    ∧ w.byId.countP (fun e => e.1 == x) ≤ 1 := by
  have hwf := wf_of_reachable hw
  refine ⟨?_, ?_, countP_key_le_one Prod.fst hwf.idsNodup x⟩
  · intro habs
    exact add_result_of_absent w p ((findById_none_iff w p.prod.id).mp habs)
  · intro hsome
    rw [FindProductById] at hsome
    cases hfind : w.findEntry p.prod.id with
    | none => rw [hfind] at hsome; cases hsome
    | some e => exact add_result_of_present w p e hfind

theorem add_product_spec_witness :
    FindProductById sampleW pD.prod.id = none
    ∧ (AddProduct sampleW pD).1 = true
    ∧ (FindProductById sampleW pA.prod.id).isSome = true
    ∧ AddProduct sampleW pA = (false, sampleW) :=
  ⟨by decide,
    ((add_product_spec sampleW ⟨sampleOps, rfl⟩ pD "id").1 (by decide)).1,
    by decide,
    (add_product_spec sampleW ⟨sampleOps, rfl⟩ pA "id").2.1 (by decide)⟩

/-- C4: for every id `x` in a reachable state: the value returned by
`RemoveProductById x` is always 0 or 1; if no item with id `x` is present
the call returns 0 and changes no state; if an item `q` with id `x` is
present the call returns 1, afterwards `FindProductById x` is absent and
`FindProductsByProducer` of the former producer no longer includes `q`. -/
theorem remove_product_spec (w : Warehouse) (hw : Reachable w)
    (x : String) :
    ((RemoveProductById w x).1 = 0 ∨ (RemoveProductById w x).1 = 1)
    ∧ (FindProductById w x = none → RemoveProductById w x = (0, w))
    ∧ (∀ q, FindProductById w x = some q →
        (RemoveProductById w x).1 = 1
        ∧ FindProductById (RemoveProductById w x).2 x = none
        ∧ q ∉ (FindProductsByProducer (RemoveProductById w x).2
            q.prod.producer).1) := by
  have hwf := wf_of_reachable hw
  refine ⟨?_, ?_, ?_⟩
  · cases hfind : w.findEntry x with
    | none => left; simp [RemoveProductById, hfind]
    | some e => right; simp [RemoveProductById, hfind]
  · intro habs
    exact remove_result_of_absent w x ((findById_none_iff w x).mp habs)
  · intro q hq
    exact remove_result_of_present w hwf x q hq

theorem remove_product_spec_witness :
    FindProductById sampleW "id9" = none
    ∧ RemoveProductById sampleW "id9" = (0, sampleW)
    ∧ FindProductById sampleW "id1" = some pA
    ∧ (RemoveProductById sampleW "id1").1 = 1
    ∧ FindProductById (RemoveProductById sampleW "id1").2 "id1" = none :=
  ⟨by decide,
    (remove_product_spec sampleW ⟨sampleOps, rfl⟩ "id9").2.1 (by decide),
    by decide,
    ((remove_product_spec sampleW ⟨sampleOps, rfl⟩ "id1").2.2 pA
      (by decide)).1,
    ((remove_product_spec sampleW ⟨sampleOps, rfl⟩ "id1").2.2 pA
      (by decide)).2.1⟩

/-- C5: for every id `x` and every sequence of add/remove operations from
the empty warehouse, `FindProductById x` returns a present handle iff the
most recent operation affecting id `x` was a successful add not yet
followed by a successful remove (the P2 single-id state machine, here
`presentAfterSpec`). `FindProductById` is embedded as a pure function on
the state, reflecting that it has no side effects and never fails. -/
theorem find_by_id_state_machine (ops : List Op) (x : String) :
    (FindProductById (runOps ops) x).isSome = presentAfterSpec x ops := by
  rw [runOps, presentAfterSpec, findById_foldl ops empty wf_empty x]
  rfl

/-- C6: removal is idempotent in outcome: removing a present id returns 1,
removing it again returns 0 and leaves the state unchanged, and a third
consecutive call also returns 0. -/
theorem remove_idempotent (w : Warehouse) (hw : Reachable w) (x : String)
    (hpres : (FindProductById w x).isSome) :
    (RemoveProductById w x).1 = 1
    ∧ (RemoveProductById (RemoveProductById w x).2 x).1 = 0
    ∧ (RemoveProductById (RemoveProductById w x).2 x).2
        = (RemoveProductById w x).2
    ∧ (RemoveProductById
        (RemoveProductById (RemoveProductById w x).2 x).2 x).1 = 0 := by
  have hwf := wf_of_reachable hw
  obtain ⟨q, hq⟩ := Option.isSome_iff_exists.mp hpres
  obtain ⟨h1, h2, _⟩ := remove_result_of_present w hwf x q hq
  have habs : (RemoveProductById w x).2.findEntry x = none :=
    (findById_none_iff _ x).mp h2
  have h0 := remove_result_of_absent (RemoveProductById w x).2 x habs
  refine ⟨h1, ?_, ?_, ?_⟩
  · rw [h0]
  · rw [h0]
  · rw [h0]
    rw [remove_result_of_absent (RemoveProductById w x).2 x habs]

theorem remove_idempotent_witness :
    Reachable sampleW
    ∧ (FindProductById sampleW "id1").isSome = true
    ∧ (RemoveProductById sampleW "id1").1 = 1
    ∧ (RemoveProductById (RemoveProductById sampleW "id1").2 "id1").1 = 0 :=
  ⟨⟨sampleOps, rfl⟩, by decide,
    (remove_idempotent sampleW ⟨sampleOps, rfl⟩ "id1" (by decide)).1,
    (remove_idempotent sampleW ⟨sampleOps, rfl⟩ "id1" (by decide)).2.1⟩

/-- C7: expected negative outcomes are ordinary return values with the state
unchanged — duplicate-id insert returns false with the same state, removal
of an absent id returns 0 with the same state, a producer lookup with no
matches returns an empty output with count 0 — while the only failing case
is the null-handle precondition of `AddProduct` (the assertion), and under
a non-null handle the operation is total (the failure branch unreachable). -/
theorem error_handling_total (w : Warehouse) (p : ProductPtr) (x : String)
    (pr : String) :
    AddProductChecked w none = none
    ∧ AddProductChecked w (some p) = some (AddProduct w p)
    ∧ ((FindProductById w p.prod.id).isSome → AddProduct w p = (false, w))
    ∧ (FindProductById w x = none → RemoveProductById w x = (0, w))
    ∧ ((∀ pe ∈ w.byProducer, pe.key ≠ pr) →
        FindProductsByProducer w pr = ([], 0)) := by
  refine ⟨rfl, rfl, ?_, ?_, ?_⟩
  · intro hsome
    rw [FindProductById] at hsome
    cases hfind : w.findEntry p.prod.id with
    | none => rw [hfind] at hsome; cases hsome
    | some e => exact add_result_of_present w p e hfind
  · intro habs
    exact remove_result_of_absent w x ((findById_none_iff w x).mp habs)
  · intro hno
    have hnil : w.byProducer.filter (fun e => e.key == pr) = [] := by
      rw [List.filter_eq_nil_iff]
      intro pe hpe
      simpa using hno pe hpe
    rw [FindProductsByProducer, hnil]
    rfl

theorem error_handling_total_witness :
    AddProductChecked sampleW none = none
    ∧ AddProduct sampleW pA = (false, sampleW)
    ∧ RemoveProductById sampleW "id9" = (0, sampleW)
    ∧ FindProductsByProducer sampleW "producerZ" = ([], 0) :=
  ⟨(error_handling_total sampleW pA "id9" "producerZ").1,
    (error_handling_total sampleW pA "id9" "producerZ").2.2.1 (by decide),
    (error_handling_total sampleW pA "id9" "producerZ").2.2.2.1 (by decide),
    (error_handling_total sampleW pA "id9" "producerZ").2.2.2.2
      (by decide)⟩

/-- C9: handle identity: after a successful `AddProduct p` in a reachable
state, `FindProductById` of `p`'s id returns the very same shared handle `p`
that was inserted (the model's `ProductPtr` carries the pointer identity
`addr`, so this is pointer equality, not value equality of a copy), and
`FindProductsByProducer` of `p`'s producer likewise yields that same handle;
both keep doing so across any further operations as long as the item's id is
not removed. -/
theorem handle_identity (w : Warehouse) (hw : Reachable w) (p : ProductPtr)
    (habs : FindProductById w p.prod.id = none) :
    FindProductById (AddProduct w p).2 p.prod.id = some p
    ∧ p ∈ (FindProductsByProducer (AddProduct w p).2 p.prod.producer).1
    ∧ ∀ ops : List Op, (∀ o ∈ ops, o ≠ Op.remove p.prod.id) →
        FindProductById (ops.foldl applyOp (AddProduct w p).2) p.prod.id
          = some p
        ∧ p ∈ (FindProductsByProducer
            (ops.foldl applyOp (AddProduct w p).2) p.prod.producer).1 := by
  have hwf := wf_of_reachable hw
  have hfe := (findById_none_iff w p.prod.id).mp habs
  obtain ⟨_, hfid, hfpr⟩ := add_result_of_absent w p hfe
  have hwf' : WF (AddProduct w p).2 := wf_AddProduct w p hwf
  have hpres : Present (AddProduct w p).2 p :=
    ((findById_eq_some _ hwf' p.prod.id p).mp hfid).1
  refine ⟨hfid, hfpr, ?_⟩
  intro ops hno
  have hwf2 : WF (ops.foldl applyOp (AddProduct w p).2) :=
    wf_foldl ops _ hwf'
  have hpres2 := present_foldl ops _ hwf' p hpres hno
  exact ⟨(findById_eq_some _ hwf2 p.prod.id p).mpr ⟨hpres2, rfl⟩,
    (mem_find_by_producer _ hwf2 p.prod.producer p).mpr ⟨hpres2, rfl⟩⟩

theorem handle_identity_witness :
    FindProductById sampleW pD.prod.id = none
    ∧ FindProductById (AddProduct sampleW pD).2 pD.prod.id = some pD
    ∧ FindProductById
        ([Op.remove "id1"].foldl applyOp (AddProduct sampleW pD).2)
        pD.prod.id = some pD :=
  ⟨by decide,
    (handle_identity sampleW ⟨sampleOps, rfl⟩ pD (by decide)).1,
    ((handle_identity sampleW ⟨sampleOps, rfl⟩ pD (by decide)).2.2
      [Op.remove "id1"] (by decide)).1⟩

/-- C10: frame property in a reachable state: `AddProduct p` leaves
`FindProductById y` unchanged for every other id `y` and leaves
`FindProductsByProducer pr` unchanged for every other producer `pr`;
`RemoveProductById x` of a present item `q` leaves every other id's lookup
unchanged, leaves every other producer's group unchanged, and within `q`'s
own producer group changes membership of no handle other than `q`. -/
theorem frame_property (w : Warehouse) (hw : Reachable w) (p : ProductPtr)
    (x : String) :
    (∀ y, y ≠ p.prod.id →
        FindProductById (AddProduct w p).2 y = FindProductById w y)
    ∧ (∀ pr, pr ≠ p.prod.producer →
        FindProductsByProducer (AddProduct w p).2 pr
          = FindProductsByProducer w pr)
    ∧ (∀ q, FindProductById w x = some q →
        (∀ y, y ≠ x →
            FindProductById (RemoveProductById w x).2 y
              = FindProductById w y)
        ∧ (∀ pr, pr ≠ q.prod.producer →
            FindProductsByProducer (RemoveProductById w x).2 pr
              = FindProductsByProducer w pr)
        ∧ (∀ r, r ≠ q →
            (r ∈ (FindProductsByProducer (RemoveProductById w x).2
                q.prod.producer).1
              ↔ r ∈ (FindProductsByProducer w q.prod.producer).1))) := by
  have hwf := wf_of_reachable hw
  refine ⟨?_, ?_, ?_⟩
  · intro y hy
    cases hfind : w.findEntry p.prod.id with
    | some e => simp [AddProduct, hfind]
    | none =>
        have hstate : (AddProduct w p).2.byId
            = (p.prod.id, ⟨p, w.nextToken⟩) :: w.byId := by
          simp [AddProduct, hfind]
        rw [findById_def, hstate, List.find?_cons]
        have hne : ((p.prod.id, (⟨p, w.nextToken⟩ : IdEntry)).1 == y)
            = false := beq_eq_false_iff_ne.mpr (fun h => hy h.symm)
        rw [hne]
        rfl
  · intro pr hpr
    cases hfind : w.findEntry p.prod.id with
    | some e => simp [AddProduct, hfind]
    | none =>
        have hstate : (AddProduct w p).2.byProducer
            = ⟨w.nextToken, p.prod.producer, p⟩ :: w.byProducer := by
          simp [AddProduct, hfind]
        rw [FindProductsByProducer, FindProductsByProducer, hstate,
          List.filter_cons]
        have hne : ((⟨w.nextToken, p.prod.producer, p⟩ : PEntry).key == pr)
            = false := beq_eq_false_iff_ne.mpr (fun h => hpr h.symm)
        rw [hne]
        simp
  · intro q hq
    rw [FindProductById] at hq
    cases hfind : w.findEntry x with
    | none => rw [hfind] at hq; cases hq
    | some e =>
        rw [hfind] at hq
        have hqe : e.2.pProduct = q := by simpa using hq
        have hfind' : w.byId.find? (fun be => be.1 == x) = some e := hfind
        have he_mem : e ∈ w.byId := List.mem_of_find?_eq_some hfind'
        have he_key : e.1 = x := by simpa using List.find?_some hfind'
        have hstateId : (RemoveProductById w x).2.byId
            = w.byId.eraseP (fun be => be.1 == x) := by
          simp [RemoveProductById, hfind]
        have hstatePr : (RemoveProductById w x).2.byProducer
            = w.byProducer.eraseP (fun pe => pe.token == e.2.itToken) := by
          simp [RemoveProductById, hfind]
        refine ⟨?_, ?_, ?_⟩
        · intro y hy
          rw [findById_def, hstateId, find_eraseP_of_ne Prod.fst w.byId hy]
          rfl
        · intro pr hpr
          have hnode : (⟨e.2.itToken, q.prod.producer, q⟩ : PEntry)
              ∈ w.byProducer := by
            have hl := hwf.link e he_mem
            rw [hqe] at hl
            exact hl
          have hcond : ∀ a ∈ w.byProducer,
              (a.token == e.2.itToken) → ((a.key == pr) = false) := by
            intro a ha htok
            have htok' : a.token = e.2.itToken := by simpa using htok
            have ha' : a = ⟨e.2.itToken, q.prod.producer, q⟩ :=
              List.inj_on_of_nodup_map hwf.prodTokensNodup ha hnode htok'
            rw [ha']
            exact beq_eq_false_iff_ne.mpr (fun h => hpr h.symm)
          rw [FindProductsByProducer, FindProductsByProducer, hstatePr,
            filter_eraseP_of_not _ _ _ hcond]
        · intro r hr
          have hwf' : WF (RemoveProductById w x).2 :=
            wf_RemoveProductById w x hwf
          rw [mem_find_by_producer _ hwf' _ r,
            mem_find_by_producer _ hwf _ r]
          constructor
          · rintro ⟨⟨e', he', hpe'⟩, hprod⟩
            refine ⟨⟨e', ?_, hpe'⟩, hprod⟩
            rw [hstateId] at he'
            exact (List.eraseP_sublist w.byId).subset he'
          · rintro ⟨⟨e', he', hpe'⟩, hprod⟩
            refine ⟨⟨e', ?_, hpe'⟩, hprod⟩
            rw [hstateId]
            refine (List.mem_eraseP_of_neg ?_).mpr he'
            simp only [beq_iff_eq]
            intro hkey
            have heq : e' = e := List.inj_on_of_nodup_map hwf.idsNodup he'
              he_mem (by rw [hkey, he_key])
            exact hr (by rw [← hpe', heq, hqe])

theorem frame_property_witness :
    FindProductById (AddProduct sampleW pD).2 "id1"
      = FindProductById sampleW "id1"
    ∧ FindProductsByProducer (AddProduct sampleW pD).2 "producerX"
      = FindProductsByProducer sampleW "producerX"
    ∧ FindProductById sampleW "id1" = some pA
    ∧ FindProductsByProducer (RemoveProductById sampleW "id1").2 "producerY"
      = FindProductsByProducer sampleW "producerY"
    ∧ (pB ∈ (FindProductsByProducer (RemoveProductById sampleW "id1").2
          pA.prod.producer).1
        ↔ pB ∈ (FindProductsByProducer sampleW pA.prod.producer).1) :=
  ⟨(frame_property sampleW ⟨sampleOps, rfl⟩ pD "id1").1 "id1" (by decide),
    (frame_property sampleW ⟨sampleOps, rfl⟩ pD "id1").2.1 "producerX"
      (by decide),
    by decide,
    ((frame_property sampleW ⟨sampleOps, rfl⟩ pD "id1").2.2 pA
      (by decide)).2.1 "producerY" (by decide),
    ((frame_property sampleW ⟨sampleOps, rfl⟩ pD "id1").2.2 pA
      (by decide)).2.2 pB (by decide)⟩

theorem cross_index_consistent_witness :
    Reachable sampleW
    ∧ ("id1", (⟨pA, 0⟩ : IdEntry)) ∈ sampleW.byId
    ∧ sampleW.byProducer.countP (fun pe => pe.token == 0) = 1 :=
  ⟨⟨sampleOps, rfl⟩, by decide,
    ((cross_index_consistent sampleW ⟨sampleOps, rfl⟩).1
      ("id1", ⟨pA, 0⟩) (by decide)).1⟩

end Warehouse
